import Mathlib

/-!
Verification development for the node-scraper metrics exporter
(`src/main.rs`).  The program invokes `top -b -n 1 -w 512` and `netstat -s`,
parses their text output into metric records, stores them in a shared
`Vec<(String, f64)>` behind two nested async mutexes, and renders the store
on `/metrics` requests.

Modelling conventions:
- Rust `&str` / `String` values are modelled as `List Char` (`Str`), and raw
  byte buffers (stdout/stderr of commands) as `List Nat`.
- Rust `f64` is modelled by `FVal`: exact rationals for finite decimal
  literals plus `inf` / `neginf` / `nan` for the special literals accepted by
  `f64::from_str`.  Binary rounding and overflow-to-infinity of huge decimal
  literals are not modelled; no claim depends on them.
- Code that can panic (`unwrap`, out-of-bounds indexing, non-boundary string
  slicing) is modelled with `Option`, where `none` means the panic.
- Error display payloads (`ParseFloatError`, `Utf8Error`) are abbreviated to
  the fixed message text of the `format!` call sites.
-/

deriving instance DecidableEq for Except

namespace NodeScraper

/-- Rust strings, modelled as lists of unicode scalar values. -/
abbrev Str := List Char

/-- Metric identifier constants from the top of `main.rs`. -/
def CPU_USER_ID : Str := "cpu_user".data
def CPU_IDLE_ID : Str := "cpu_idle".data
def CPU_SYSTEM_ID : Str := "cpu_system".data
def CPU_NICE_ID : Str := "cpu_nice".data
def MEM_TOTAL_ID : Str := "mem_total".data
def MEM_FREE_ID : Str := "mem_free".data
def MEM_USED_ID : Str := "mem_used".data
def MEM_BUFFERED_ID : Str := "mem_buffered".data
def PROC_CPU_ID : Str := "proc_cpu".data
def PROC_MEM_ID : Str := "proc_mem".data
def NETSTAT_INFO_ID : Str := "netstat_info".data

/-- Model of Rust `f64` values that can result from `str::parse::<f64>`:
finite values are kept as exact rationals. -/
inductive FVal where
  | num (q : ℚ)
  | inf
  | neginf
  | nan
deriving DecidableEq, Repr

/-- One call to `send_influx_value`: metric id, optional label pairs, value.
This is the structured form of a metric record before wire formatting. -/
structure Rec where
  id : Str
  labels : Option (List (Str × Str))
  val : FVal
deriving DecidableEq, Repr

/-! ### String primitives mirroring the Rust std functions used -/

/-- Unicode `White_Space`, as used by Rust `char::is_whitespace`. -/
def isWhitespaceChar (c : Char) : Bool :=
  let n := c.toNat
  (9 ≤ n ∧ n ≤ 13) ∨ n = 32 ∨ n = 0x85 ∨ n = 0xA0 ∨ n = 0x1680 ∨
  (0x2000 ≤ n ∧ n ≤ 0x200A) ∨ n = 0x2028 ∨ n = 0x2029 ∨ n = 0x202F ∨
  n = 0x205F ∨ n = 0x3000

/-- Rust `str::trim_matches(p)`: strip characters satisfying `p` from both
ends. -/
def trimMatchesBy (p : Char → Bool) (s : Str) : Str :=
  ((s.dropWhile p).reverse.dropWhile p).reverse

/-- Rust `str::trim`. -/
def trimStr (s : Str) : Str := trimMatchesBy isWhitespaceChar s

/-- Rust `str::split(sep)` for a one-element separator pattern, keeping empty
tokens (`"".split(c)` is `[""]`, `"a,,b".split(',')` is `["a","","b"]`).
Written generically so the same splitter serves byte buffers
(`stdout.split(|&el| el == 10)`). -/
def splitSep {α : Type} [DecidableEq α] (sep : α) : List α → List (List α)
  | [] => [[]]
  | a :: rest =>
    if a = sep then [] :: splitSep sep rest
    else
      match splitSep sep rest with
      | t :: ts => (a :: t) :: ts
      | [] => [[a]]

/-- Rust `str::replace(pat, rep)` for a non-empty pattern: replace every
(leftmost-first, non-overlapping) occurrence of `pat` by `rep`.  For the
empty pattern Rust matches at every char boundary; the code never calls it
with an empty pattern, but the definition is total and faithful anyway. -/
def replaceStrAux (pat rep : Str) : Str → Nat → Str
  | [], _ => []
  | _ :: rest, skip + 1 => replaceStrAux pat rep rest skip
  | c :: rest, 0 =>
    if pat.isPrefixOf (c :: rest) ∧ pat ≠ [] then
      rep ++ replaceStrAux pat rep rest (pat.length - 1)
    else
      c :: replaceStrAux pat rep rest 0

def replaceStr (pat rep s : Str) : Str := replaceStrAux pat rep s 0

/-- Rust empty-pattern `replace` is irrelevant here; `replaceAll` is the
call-site wrapper (all call sites pass a non-empty pattern). -/
def replaceAll (s pat rep : Str) : Str := replaceStr pat rep s

/-! ### `str::parse::<f64>` modelled over exact rationals -/

/-- ASCII lowercasing, as done case-insensitively by `f64::from_str` for the
special literals. -/
def lowerChar (c : Char) : Char :=
  if 'A' ≤ c ∧ c ≤ 'Z' then Char.ofNat (c.toNat + 32) else c

/-- Numeric value of a list of ASCII digits (most significant first). -/
def digitsToNat : List Char → Nat
  | [] => 0
  | d :: rest => (digitsToNat rest) + (d.toNat - '0'.toNat) * 10 ^ rest.length

/-- Exponent part `[+|-]digits` of a float literal. -/
def parseExpPart (s : Str) : Option ℤ :=
  match s with
  | '+' :: rest =>
    if rest ≠ [] ∧ rest.all Char.isDigit then some (digitsToNat rest) else none
  | '-' :: rest =>
    if rest ≠ [] ∧ rest.all Char.isDigit then some (-(digitsToNat rest : ℤ)) else none
  | _ =>
    if s ≠ [] ∧ s.all Char.isDigit then some (digitsToNat s) else none

/-- `10 ^ k` for a signed decimal exponent, written with `Rat.divInt` so that
the kernel can evaluate it on concrete inputs. -/
def pow10 (k : ℤ) : ℚ :=
  if 0 ≤ k then ((Nat.pow 10 k.toNat : ℕ) : ℚ)
  else Rat.divInt 1 ((Nat.pow 10 (-k).toNat : ℕ) : ℤ)

/-- Mantissa and optional exponent: `digits [. digits] [ (e|E) exp ]` with at
least one digit in the mantissa.  The value is the exact rational
`intpart + frac/10^(frac digits)` scaled by the exponent. -/
def parseDecMant (s : Str) : Option ℚ :=
  let ds := s.takeWhile Char.isDigit
  let r1 := s.dropWhile Char.isDigit
  match r1 with
  | [] => if ds = [] then none else some (digitsToNat ds : ℚ)
  | c :: r2 =>
    if c = '.' then
      let fs := r2.takeWhile Char.isDigit
      let r3 := r2.dropWhile Char.isDigit
      if ds = [] ∧ fs = [] then none
      else
        let m : ℚ := (digitsToNat ds : ℚ)
          + Rat.divInt (digitsToNat fs) ((Nat.pow 10 fs.length : ℕ) : ℤ)
        match r3 with
        | [] => some m
        | e :: r4 =>
          if e = 'e' ∨ e = 'E' then
            match parseExpPart r4 with
            | some k => some (m * pow10 k)
            | none => none
          else none
    else if (c = 'e' ∨ c = 'E') ∧ ds ≠ [] then
      match parseExpPart r2 with
      | some k => some ((digitsToNat ds : ℚ) * pow10 k)
      | none => none
    else none

/-- Unsigned part of `f64::from_str`: special literals or decimal mantissa. -/
def parseAbsF64 (s : Str) : Option FVal :=
  let ls := s.map lowerChar
  if ls = "inf".data ∨ ls = "infinity".data then some .inf
  else if ls = "nan".data then some .nan
  else (parseDecMant s).map .num

/-- Negation on the `f64` model. -/
def fvalNeg : FVal → FVal
  | .num q => .num (-q)
  | .inf => .neginf
  | .neginf => .inf
  | .nan => .nan

/-- Model of Rust `str::parse::<f64>()`: optional sign, then special literal
or decimal mantissa with optional exponent, consuming the whole string. -/
def parseF64 (s : Str) : Option FVal :=
  match s with
  | '+' :: rest => parseAbsF64 rest
  | '-' :: rest => (parseAbsF64 rest).map fvalNeg
  | _ => parseAbsF64 s

/-- The composite used by all numeric call sites:
`tok.trim().replace(",", ".").parse::<f64>()` (cpu/mem lines) and
`tok.replace(",", ".").parse::<f64>()` (process rows, no trim). -/
def parseNumTok (s : Str) : Option FVal :=
  parseF64 (replaceAll s ",".data ".".data)

/-! ### Source parsers (`handle_cpu_line`, `handle_mem_line`,
`handle_proc_line`, `handle_netstat_line`) -/

/-- The `match part.trim_matches(|c| c == ' ' || c == ',')` arm of
`handle_cpu_line`, returning the metric id the tag maps to. -/
def cpuTag (part : Str) : Option Str :=
  let t := trimMatchesBy (fun c => c = ' ' ∨ c = ',') part
  if t = "us".data then some CPU_USER_ID
  else if t = "sy".data then some CPU_SYSTEM_ID
  else if t = "ni".data then some CPU_NICE_ID
  else if t = "id".data then some CPU_IDLE_ID
  else none

/-- Same for `handle_mem_line`. -/
def memTag (part : Str) : Option Str :=
  let t := trimMatchesBy (fun c => c = ' ' ∨ c = ',') part
  if t = "total".data then some MEM_TOTAL_ID
  else if t = "free".data then some MEM_FREE_ID
  else if t = "used".data then some MEM_USED_ID
  else if t = "buff/cache".data then some MEM_BUFFERED_ID
  else none

/-- The sliding-window loop shared by the cpu and mem parsers: walk the
space-split tokens keeping the previous token; whenever
`prev.trim().replace(",", ".")` parses as a float and the current token trims
to a known tag, emit a label-less record. -/
def slideLoop (tag : Str → Option Str) (prev : Str) : List Str → List Rec
  | [] => []
  | part :: rest =>
    (match parseNumTok (trimStr prev) with
     | some v =>
       match tag part with
       | some mid => [⟨mid, none, v⟩]
       | none => []
     | none => []) ++ slideLoop tag part rest

/-- `handle_cpu_line`: always returns `Ok`, emitting records for recognized
`value tag` pairs.  The `Arc<Mutex<…>>` pushes are modelled by returning the
list of pushed records in program order. -/
def handle_cpu_line (line : Str) : Except Str (List Rec) :=
  .ok (slideLoop cpuTag [] (splitSep ' ' line))

/-- `handle_mem_line`: identical structure with the memory tags. -/
def handle_mem_line (line : Str) : Except Str (List Rec) :=
  .ok (slideLoop memTag [] (splitSep ' ' line))

/-- `line.trim().split(" ").filter(|&v| v != "")` of `handle_proc_line`. -/
def procTokens (line : Str) : List Str :=
  (splitSep ' ' (trimStr line)).filter (· ≠ [])

/-- `handle_proc_line`.  The five `line_items[i]` index operations panic when
out of bounds (`none`); a failing numeric parse of column 8 or 5 is a
returned error (`some (.error …)`); otherwise two records sharing the
`{pid, user, command}` labels are pushed. -/
def handle_proc_line (line : Str) : Option (Except Str (List Rec)) := do
  let items := procTokens line
  let pid ← items.get? 0
  let user ← items.get? 1
  let cmd ← items.get? (items.length - 1)
  let labels : List (Str × Str) :=
    [("pid".data, pid), ("user".data, user), ("command".data, cmd)]
  let s8 ← items.get? 8
  match parseF64 (replaceAll s8 ",".data ".".data) with
  | none => some (.error ("Unable to convert process CPU to float: invalid float literal".data))
  | some cpuVal => do
    let s5 ← items.get? 5
    match parseF64 (replaceAll s5 ",".data ".".data) with
    | none => some (.error ("Unable to convert process memory to float: invalid float literal".data))
    | some memVal =>
      some (.ok [⟨PROC_CPU_ID, some labels, cpuVal⟩, ⟨PROC_MEM_ID, some labels, memVal⟩])

/-- `handle_line`: classify one decoded line of `top` output.  Panics
(`none`) when the line is non-empty but all whitespace
(`line.trim().chars().next().unwrap()`), or when its first char is multibyte
(`&line[..1]` is not a char boundary). -/
def handle_line (line : Str) : Option (Except Str (List Rec)) :=
  if "%Cpu(s):".data.isPrefixOf line then some (handle_cpu_line line)
  else if "MiB Mem :".data.isPrefixOf line then some (handle_mem_line line)
  else
    match line with
    | [] => some (.ok [])
    | c :: _ =>
      match (trimStr line).head? with
      | none => none
      | some firstChar =>
        if c.toNat ≥ 128 then none
        else if c = ' ' ∧ firstChar.isDigit then handle_proc_line line
        else some (.ok [])

/-- The digit-run extraction of `handle_netstat_line`: map every non-digit
char to a placeholder, split on it, drop empty pieces. -/
def digitRuns (t : Str) : List Str :=
  (splitSep '_' (t.map (fun c => if !c.isDigit then '_' else c))).filter (· ≠ [])

/-- Rust `Vec::join(sep)`: concatenate with `sep` between the pieces. -/
def joinSep (sep : Str) : List Str → Str
  | [] => []
  | [x] => x
  | x :: y :: rest => x ++ sep ++ joinSep sep (y :: rest)

/-- The per-run description: remove every textual occurrence of the digit
run from the trimmed line, trim colons and spaces, collapse space runs. -/
def netstatDesc (t nr : Str) : Str :=
  let d := trimMatchesBy (fun c => c = ' ' ∨ c = ':') (replaceAll t nr [])
  joinSep " ".data ((splitSep ' ' d).filter (· ≠ []))

/-- The record `handle_netstat_line` pushes for one digit run, given its
parsed value. -/
def netstatRec (header t nr : Str) (v : FVal) : Rec :=
  ⟨NETSTAT_INFO_ID, some [("category".data, header), ("desc".data, netstatDesc t nr)], v⟩

/-- The `for nr in numbers` loop of `handle_netstat_line`: pushes already
made stay even when a later run fails to parse (the function then returns
the error). -/
def netstatLoop (header t : Str) : List Str → List Rec × Option Str
  | [] => ([], none)
  | nr :: rest =>
    match parseF64 nr with
    | none => ([], some ("Unable to convert NETSTAT value to float: invalid float literal".data))
    | some v =>
      let (rs, e) := netstatLoop header t rest
      (netstatRec header t nr v :: rs, e)

/-- `handle_netstat_line`: records pushed in program order plus the optional
error returned. -/
def handle_netstat_line (header line : Str) : List Rec × Option Str :=
  let t := trimStr line
  netstatLoop header t (digitRuns t)

/-! ### Wire formatting (`send_influx_value`) and the metrics endpoint -/

/-- `String::pop`: drop the last char, a no-op on the empty string. -/
def popChar (s : Str) : Str := s.dropLast

/-- The label formatting of `send_influx_value`: fold the pairs into
`k="v", k2="v2", ` and pop the trailing comma and space; `None` params give
the empty string. -/
def fmtParams : Option (List (Str × Str)) → Str
  | none => []
  | some ps =>
    popChar (popChar (ps.foldl
      (fun acc kv => acc ++ kv.1 ++ "=\"".data ++ kv.2 ++ "\", ".data) []))

/-- `send_influx_value`: the `(String, f64)` pair pushed into the
`DataHolder`, with the key formatted as `id{params}`. -/
def send_influx_value (r : Rec) : Str × FVal :=
  (r.id ++ "\x7b".data ++ fmtParams r.labels ++ "\x7d".data, r.val)

/-- Decimal digits of a natural number, most significant first. -/
def natToStr (n : Nat) : Str := Nat.toDigits 10 n

/-- Long-division decimal expansion of `num/den`, `fuel` digits at most. -/
def fracDigits (fuel num den : Nat) : Str :=
  match fuel with
  | 0 => []
  | fuel + 1 =>
    if num = 0 ∨ den = 0 then []
    else
      let d := (num * 10) / den
      Char.ofNat ('0'.toNat + d) :: fracDigits fuel (num * 10 % den) den

/-- Model of `f64::to_string`.  Finite store values always originate from
decimal literals, so their exact decimal expansion exists; 1200 fractional
digits of fuel cover every decimal of that origin.  The exact shortest
round-trip digit selection of Rust is not modelled; no claim inspects the
digits of a rendered value. -/
def valToStr : FVal → Str
  | .nan => "NaN".data
  | .inf => "inf".data
  | .neginf => "-inf".data
  | .num q =>
    let sign : Str := if q < 0 then "-".data else []
    let n := q.num.natAbs
    let d := q.den
    let intPart := natToStr (n / d)
    let frac := fracDigits 1200 (n % d) d
    sign ++ intPart ++ (if frac = [] then [] else ".".data ++ frac)

/-- The `/metrics` fold of `main`: one `key value` line per store entry, each
followed by a newline, then `ans.pop()` removes the final newline (a no-op
when the store is empty). -/
def render (items : List (Str × FVal)) : Str :=
  popChar (items.foldl
    (fun acc kv => acc ++ kv.1 ++ " ".data ++ valToStr kv.2 ++ "\n".data) [])

/-- The `/metrics` endpoint: `Response::from_string(ans).with_status_code(200)`.
First component is the HTTP status, second the body. -/
def metricsResponse (items : List (Str × FVal)) : Nat × Str :=
  (200, render items)

/-! ### UTF-8 decoding (`str::from_utf8`) and the two source adapters -/

/-- A UTF-8 continuation byte `10xxxxxx`. -/
def isCont (b : Nat) : Bool := 128 ≤ b ∧ b < 192

/-- Model of `str::from_utf8` on a byte list: standard UTF-8 validation
(RFC 3629: no overlong forms, no surrogates, max U+10FFFF), decoding to the
scalar values; `none` is the `Utf8Error`. -/
def utf8Decode : List Nat → Option Str
  | [] => some []
  | b :: rest =>
    if b < 128 then
      (utf8Decode rest).map (Char.ofNat b :: ·)
    else if b < 194 then none
    else if b < 224 then
      match rest with
      | c :: rest2 =>
        if isCont c then
          (utf8Decode rest2).map (Char.ofNat ((b - 192) * 64 + (c - 128)) :: ·)
        else none
      | [] => none
    else if b < 240 then
      match rest with
      | c :: d :: rest3 =>
        if isCont c ∧ isCont d ∧ (b ≠ 224 ∨ c ≥ 160) ∧ (b ≠ 237 ∨ c < 160) then
          (utf8Decode rest3).map
            (Char.ofNat ((b - 224) * 4096 + (c - 128) * 64 + (d - 128)) :: ·)
        else none
      | _ => none
    else if b < 245 then
      match rest with
      | c :: d :: e :: rest4 =>
        if isCont c ∧ isCont d ∧ isCont e ∧ (b ≠ 240 ∨ c ≥ 144) ∧ (b ≠ 244 ∨ c < 144) then
          (utf8Decode rest4).map
            (Char.ofNat ((b - 240) * 262144 + (c - 128) * 4096 + (d - 128) * 64 + (e - 128)) :: ·)
        else none
      | _ => none
    else none

/-- Outcome of `Command::new(..).output()`: either the spawn itself failed
(`Err`, on which the code calls `.unwrap()`), or an `Output` with exit
status and captured byte streams. -/
inductive CmdResult where
  | spawnErr
  | output (success : Bool) (stdout stderr : List Nat)

/-- The eager `str::from_utf8(&line).unwrap()` calls of the task-spawning
loop in `exec_top_command`: all lines are decoded before any task runs, so
one undecodable line panics the adapter before any record is pushed. -/
def decodeLines : List (List Nat) → Option (List Str)
  | [] => some []
  | l :: ls => do
    let s ← utf8Decode l
    let rest ← decodeLines ls
    some (s :: rest)

/-- The dispatch-and-collect loop of `exec_top_command` over decoded lines:
per-line errors become `Line subcommand error:` log entries, records
accumulate; a panicking line (`none` from `handle_line`) aborts the whole
adapter.  Task completion order is modelled as line order. -/
def runLines : List Str → Option (List Str × List Rec)
  | [] => some ([], [])
  | l :: ls => do
    let r ← handle_line l
    let (logs, recs) ← runLines ls
    match r with
    | .ok rl => some (logs, rl ++ recs)
    | .error m => some (("Line subcommand error: ".data ++ m) :: logs, recs)

/-- `exec_top_command`, as a function from the command outcome to the log
messages written to stderr and the records pushed into the store; `none` is
a panic of the collector task. -/
def exec_top_command : CmdResult → Option (List Str × List Rec)
  | .spawnErr => none
  | .output true stdout _ => do
    let ls ← decodeLines (splitSep 10 stdout)
    runLines ls
  | .output false _ stderr =>
    match utf8Decode stderr with
    | some e => some ([ "Command error: ".data ++ e ], [])
    | none => some ([ "Unable to convert stderr to UTF-8 string".data ], [])

/-- The line loop of `exec_netstat_command` over raw byte lines, carrying the
current header: empty lines are skipped; a line whose first byte is not a
space and whose last byte is `:` becomes the new header (decoded without the
colon, `.unwrap()` panicking on bad bytes); any other line is a data line. -/
def netstatLines (header : Str) : List (List Nat) → Option (List Str × List Rec)
  | [] => some ([], [])
  | l :: ls =>
    if l.length < 1 then netstatLines header ls
    else if l.head? ≠ some 32 ∧ l.getLast? = some 58 then
      match utf8Decode l.dropLast with
      | none => none
      | some h => netstatLines h ls
    else do
      let s ← utf8Decode l
      let (recs, e) := handle_netstat_line header s
      let (logs, rs) ← netstatLines header ls
      match e with
      | some m => some (("Line subcommand error NETSTAT: ".data ++ m) :: logs, recs ++ rs)
      | none => some (logs, recs ++ rs)

/-- `exec_netstat_command`, same shape as `exec_top_command`; the initial
header is the empty string. -/
def exec_netstat_command : CmdResult → Option (List Str × List Rec)
  | .spawnErr => none
  | .output true stdout _ => netstatLines [] (splitSep 10 stdout)
  | .output false _ stderr =>
    match utf8Decode stderr with
    | some e => some ([ "Command error: ".data ++ e ], [])
    | none => some ([ "Unable to convert NETSTAT stderr to UTF-8 string".data ], [])

/-! ### Concurrency model of `main`

`main` wraps the store in two nested async mutexes,
`Arc<Mutex<Arc<Mutex<DataHolder>>>>`.  The collector task acquires the outer
mutex for a whole cycle (clear under the inner mutex, then both adapters
joined), and the `/metrics` handler acquires outer then inner before
rendering.  The model below is a transition system over an abstract state:
records are abstracted to the index of the cycle that produced them
(`store : List Nat`), and the two adapters of cycle `completed` concurrently
push `nT` and `nN` such records, each push one mutex-protected step.  Lock
acquisition, clearing, pushing, finishing, and the reader steps are the
atomic transitions.

The adapters can also panic mid-cycle — the `unwrap` calls on
`Command::output()` and on `str::from_utf8` of stdout lines, shown reachable
by the C3/C4 counterexamples below.  A panic unwinds the collector task:
the outer `MutexGuard` is dropped (async_std mutexes do not poison, so the
mutex is simply released), the already-pushed records stay in the store, and
the collector task is dead — its `loop` never runs again.  The `cPanic`
transition models this; `CPc.dead` is the terminal collector state it
leaves behind. -/

/-- Owner of one of the two mutexes. -/
inductive LockOwner where
  | free
  | collector
  | reader
deriving DecidableEq

/-- Collector program counter inside `loop { … }` of the spawned task. -/
inductive CPc where
  | idle       -- sleeping / before `thread_lock_a.lock()`
  | gotOuter   -- holds the outer mutex
  | gotInner   -- holds the inner mutex, before `clear_data`
  | cleared    -- store cleared, still holds the inner mutex
  | pushing    -- inner released; `join!(top_handle, netstat_handle)` running
  | dead       -- an adapter `unwrap` panicked; the task is gone for good
deriving DecidableEq

/-- Reader (HTTP handler) program counter. -/
inductive RPc where
  | idle
  | gotOuter   -- holds the outer mutex
  | gotInner   -- holds both mutexes; may render
deriving DecidableEq

/-- Global state of the collector / reader / store system. -/
structure SysState where
  outer : LockOwner
  inner : LockOwner
  store : List Nat
  cpc : CPc
  remTop : Nat          -- records the top adapter still has to push
  remNet : Nat          -- records the netstat adapter still has to push
  completed : Nat       -- number of finished collection cycles
  rpc : RPc
  rObs : Option (List Nat)  -- last snapshot rendered by the reader
deriving DecidableEq

/-- Initial state: both locks free, empty store, nothing observed. -/
def initState : SysState :=
  ⟨.free, .free, [], .idle, 0, 0, 0, .idle, none⟩

/-- One interleaving step.  `nT`/`nN` are the per-cycle record counts of the
two adapters. -/
inductive SysStep (nT nN : Nat) : SysState → SysState → Prop where
  | cAcqOuter (s : SysState) (h1 : s.cpc = .idle) (h2 : s.outer = .free) :
      SysStep nT nN s { s with outer := .collector, cpc := .gotOuter }
  | cAcqInner (s : SysState) (h1 : s.cpc = .gotOuter) (h2 : s.inner = .free) :
      SysStep nT nN s { s with inner := .collector, cpc := .gotInner }
  | cClear (s : SysState) (h1 : s.cpc = .gotInner) :
      SysStep nT nN s { s with store := [], cpc := .cleared }
  | cRelInner (s : SysState) (h1 : s.cpc = .cleared) :
      SysStep nT nN s
        { s with inner := .free, cpc := .pushing, remTop := nT, remNet := nN }
  | cPushTop (s : SysState) (h1 : s.cpc = .pushing) (h2 : s.inner = .free)
      (h3 : 0 < s.remTop) :
      SysStep nT nN s
        { s with store := s.store ++ [s.completed], remTop := s.remTop - 1 }
  | cPushNet (s : SysState) (h1 : s.cpc = .pushing) (h2 : s.inner = .free)
      (h3 : 0 < s.remNet) :
      SysStep nT nN s
        { s with store := s.store ++ [s.completed], remNet := s.remNet - 1 }
  | cFinish (s : SysState) (h1 : s.cpc = .pushing) (h2 : s.remTop = 0)
      (h3 : s.remNet = 0) :
      SysStep nT nN s
        { s with outer := .free, cpc := .idle, completed := s.completed + 1 }
  | cPanic (s : SysState) (h1 : s.cpc = .pushing) :
      SysStep nT nN s { s with outer := .free, cpc := .dead }
  | rAcqOuter (s : SysState) (h1 : s.rpc = .idle) (h2 : s.outer = .free) :
      SysStep nT nN s { s with outer := .reader, rpc := .gotOuter }
  | rAcqInner (s : SysState) (h1 : s.rpc = .gotOuter) (h2 : s.inner = .free) :
      SysStep nT nN s { s with inner := .reader, rpc := .gotInner }
  | rRead (s : SysState) (h1 : s.rpc = .gotInner) :
      SysStep nT nN s { s with rObs := some s.store }
  | rRelInner (s : SysState) (h1 : s.rpc = .gotInner) :
      SysStep nT nN s { s with inner := .free, rpc := .gotOuter }
  | rRelOuter (s : SysState) (h1 : s.rpc = .gotOuter) :
      SysStep nT nN s { s with outer := .free, rpc := .idle }

/-- Reachability from the initial state. -/
def Reaches (nT nN : Nat) (s : SysState) : Prop :=
  Relation.ReflTransGen (SysStep nT nN) initState s

/-- A store content that is a complete snapshot: empty before the first
cycle finishes, otherwise all `nT + nN` records of the last finished
cycle. -/
def completeSnap (nT nN : Nat) (s : SysState) : Prop :=
  (s.store = [] ∧ s.completed = 0) ∨
  (1 ≤ s.completed ∧ s.store = List.replicate (nT + nN) (s.completed - 1))

/-- Inductive invariant of the system.  A dead collector holds no lock, and
the store it leaves behind is a (possibly partial) prefix of the cycle it
was rebuilding — still records of one single cycle. -/
def SysInv (nT nN : Nat) (s : SysState) : Prop :=
  (s.cpc ≠ .idle ∧ s.cpc ≠ .dead → s.outer = .collector) ∧
  (s.rpc ≠ .idle → s.outer = .reader) ∧
  ((s.cpc = .gotInner ∨ s.cpc = .cleared) → s.inner = .collector) ∧
  (s.rpc = .gotInner → s.inner = .reader) ∧
  ((s.cpc = .idle ∨ s.cpc = .gotOuter ∨ s.cpc = .gotInner) →
    completeSnap nT nN s) ∧
  (s.cpc = .cleared → s.store = []) ∧
  (s.cpc = .pushing →
    s.remTop ≤ nT ∧ s.remNet ≤ nN ∧
    s.store = List.replicate ((nT - s.remTop) + (nN - s.remNet)) s.completed) ∧
  (∀ l, s.rObs = some l → ∃ j k, l = List.replicate j k) ∧
  (s.cpc = .dead →
    ∃ j, j ≤ nT + nN ∧ s.store = List.replicate j s.completed)

lemma sysInv_init (nT nN : Nat) : SysInv nT nN initState := by
  simp [SysInv, initState, completeSnap]

lemma sysInv_step {nT nN : Nat} {s t : SysState} (hInv : SysInv nT nN s)
    (hStep : SysStep nT nN s t) : SysInv nT nN t := by
  obtain ⟨i1, i2, i3, i4, i5, i6, i7, i8, i9⟩ := hInv
  cases hStep with
  | cAcqOuter h1 h2 =>
    have hrpc : s.rpc = .idle := by
      by_contra hc; rw [i2 hc] at h2; simp at h2
    refine ⟨fun _ => rfl, ?_, ?_, i4, ?_, ?_, ?_, i8, ?_⟩
    · intro hr; exact absurd hrpc (by simpa using hr)
    · intro hc; simp at hc
    · intro _; exact i5 (Or.inl h1)
    · intro hc; simp at hc
    · intro hc; simp at hc
    · intro hc; simp at hc
  | cAcqInner h1 h2 =>
    refine ⟨fun _ => i1 (by simp [h1]), i2, fun _ => rfl, ?_, ?_, ?_, ?_, i8, ?_⟩
    · intro hr; rw [i4 hr] at h2; simp at h2
    · intro _; exact i5 (Or.inr (Or.inl h1))
    · intro hc; simp at hc
    · intro hc; simp at hc
    · intro hc; simp at hc
  | cClear h1 =>
    refine ⟨fun _ => i1 (by simp [h1]), i2, fun _ => i3 (Or.inl h1), i4, ?_, ?_, ?_, i8, ?_⟩
    · intro hc; simp at hc
    · intro _; rfl
    · intro hc; simp at hc
    · intro hc; simp at hc
  | cRelInner h1 =>
    refine ⟨fun _ => i1 (by simp [h1]), i2, ?_, ?_, ?_, ?_, ?_, i8, ?_⟩
    · intro hc; simp at hc
    · intro hr
      exfalso
      have hrd := i4 hr
      rw [i3 (Or.inr h1)] at hrd; simp at hrd
    · intro hc; simp at hc
    · intro hc; simp at hc
    · intro _
      refine ⟨Nat.le_refl _, Nat.le_refl _, ?_⟩
      simp [i6 h1]
    · intro hc; simp at hc
  | cPushTop h1 h2 h3 =>
    obtain ⟨j1, j2, j3⟩ := i7 h1
    refine ⟨fun _ => i1 (by simp [h1]), i2, ?_, i4, ?_, ?_, ?_, i8, ?_⟩
    · intro hc; simp [h1] at hc
    · intro hc; simp [h1] at hc
    · intro hc; simp [h1] at hc
    · intro _
      refine ⟨Nat.le_trans (Nat.sub_le _ _) j1, j2, ?_⟩
      have hcount : (nT - (s.remTop - 1)) + (nN - s.remNet)
          = ((nT - s.remTop) + (nN - s.remNet)) + 1 := by omega
      simp only [hcount, List.replicate_succ', j3]
    · intro hc; simp [h1] at hc
  | cPushNet h1 h2 h3 =>
    obtain ⟨j1, j2, j3⟩ := i7 h1
    refine ⟨fun _ => i1 (by simp [h1]), i2, ?_, i4, ?_, ?_, ?_, i8, ?_⟩
    · intro hc; simp [h1] at hc
    · intro hc; simp [h1] at hc
    · intro hc; simp [h1] at hc
    · intro _
      refine ⟨j1, Nat.le_trans (Nat.sub_le _ _) j2, ?_⟩
      have hcount : (nT - s.remTop) + (nN - (s.remNet - 1))
          = ((nT - s.remTop) + (nN - s.remNet)) + 1 := by omega
      simp only [hcount, List.replicate_succ', j3]
    · intro hc; simp [h1] at hc
  | cFinish h1 h2 h3 =>
    obtain ⟨j1, j2, j3⟩ := i7 h1
    have hrpc : s.rpc = .idle := by
      by_contra hc
      have hrd := i2 hc
      rw [i1 (by simp [h1])] at hrd; simp at hrd
    refine ⟨?_, ?_, ?_, i4, ?_, ?_, ?_, i8, ?_⟩
    · intro hc; simp at hc
    · intro hr; exact absurd hrpc (by simpa using hr)
    · intro hc; simp at hc
    · intro _
      right
      constructor
      · exact Nat.le_add_left 1 s.completed
      · simp [j3, h2, h3]
    · intro hc; simp at hc
    · intro hc; simp at hc
    · intro hc; simp at hc
  | cPanic h1 =>
    obtain ⟨j1, j2, j3⟩ := i7 h1
    have hrpc : s.rpc = .idle := by
      by_contra hc
      have hrd := i2 hc
      rw [i1 (by simp [h1])] at hrd; simp at hrd
    refine ⟨?_, ?_, ?_, i4, ?_, ?_, ?_, i8, ?_⟩
    · intro hc; simp at hc
    · intro hr; exact absurd hrpc (by simpa using hr)
    · intro hc; simp at hc
    · intro hc; simp at hc
    · intro hc; simp at hc
    · intro hc; simp at hc
    · intro _
      exact ⟨(nT - s.remTop) + (nN - s.remNet), by omega, j3⟩
  | rAcqOuter h1 h2 =>
    have hcpc : s.cpc = .idle ∨ s.cpc = .dead := by
      by_cases hc1 : s.cpc = .idle
      · exact Or.inl hc1
      · by_cases hc2 : s.cpc = .dead
        · exact Or.inr hc2
        · rw [i1 ⟨hc1, hc2⟩] at h2; simp at h2
    refine ⟨?_, fun _ => rfl, i3, ?_, i5, i6, i7, i8, i9⟩
    · intro hc
      rcases hcpc with h | h
      · exact absurd h hc.1
      · exact absurd h hc.2
    · intro hr; simp at hr
  | rAcqInner h1 h2 =>
    refine ⟨i1, fun _ => i2 (by simp [h1]), ?_, fun _ => rfl, i5, i6, i7, i8, i9⟩
    · intro hc; rw [i3 hc] at h2; simp at h2
  | rRead h1 =>
    refine ⟨i1, i2, i3, i4, i5, i6, i7, ?_, i9⟩
    intro l hl
    simp at hl
    have houter := i2 (by simp [h1])
    have hcpc : s.cpc = .idle ∨ s.cpc = .dead := by
      by_cases hc1 : s.cpc = .idle
      · exact Or.inl hc1
      · by_cases hc2 : s.cpc = .dead
        · exact Or.inr hc2
        · rw [i1 ⟨hc1, hc2⟩] at houter; simp at houter
    rcases hcpc with hc | hc
    · rcases i5 (Or.inl hc) with ⟨he, _⟩ | ⟨_, hrep⟩
      · refine ⟨0, 0, ?_⟩
        rw [← hl, he]; rfl
      · exact ⟨nT + nN, s.completed - 1, by rw [← hl, hrep]⟩
    · obtain ⟨j, _, hst⟩ := i9 hc
      exact ⟨j, s.completed, by rw [← hl, hst]⟩
  | rRelInner h1 =>
    refine ⟨i1, fun _ => i2 (by simp [h1]), ?_, ?_, i5, i6, i7, i8, i9⟩
    · intro hc
      exfalso
      have hrd := i3 hc
      rw [i4 h1] at hrd; simp at hrd
    · intro hr; simp at hr
  | rRelOuter h1 =>
    have houter := i2 (by simp [h1])
    have hcpc : s.cpc = .idle ∨ s.cpc = .dead := by
      by_cases hc1 : s.cpc = .idle
      · exact Or.inl hc1
      · by_cases hc2 : s.cpc = .dead
        · exact Or.inr hc2
        · rw [i1 ⟨hc1, hc2⟩] at houter; simp at houter
    refine ⟨?_, ?_, i3, ?_, i5, i6, i7, i8, i9⟩
    · intro hc
      rcases hcpc with h | h
      · exact absurd h hc.1
      · exact absurd h hc.2
    · intro hr; simp at hr
    · intro hr; simp at hr

/-- Every reachable state satisfies the invariant. -/
lemma sysInv_reaches {nT nN : Nat} {s : SysState} (h : Reaches nT nN s) :
    SysInv nT nN s := by
  induction h with
  | refl => exact sysInv_init nT nN
  | tail _ hstep ih => exact sysInv_step ih hstep

/-! ### Claims -/

/-- Counterexample for C2 as stated: the collector can panic mid-cycle (the
`unwrap` panics proved reachable in the C3/C4 counterexamples), and the
unwinding drops the outer mutex guard with the store only partially rebuilt;
async_std mutexes do not poison, so a reader then acquires both locks and
observes a store that is neither the previous nor the current complete
snapshot.  Concretely, with one record per adapter, the trace
clear → one push → panic → reader acquires both locks reaches a state where
the reader renders the one-record store `[0]` although no cycle completed
and a full cycle has two records. -/
theorem c2_counterexample :
    Reaches 1 1 ⟨.reader, .reader, [0], .dead, 0, 1, 0, .gotInner, none⟩ ∧
    (⟨.reader, .reader, [0], .dead, 0, 1, 0, .gotInner, none⟩ : SysState).rpc
      = .gotInner ∧
    ¬((([0] : List Nat) = [] ∧ (0 : Nat) = 0) ∨
      (1 ≤ (0 : Nat) ∧ ([0] : List Nat) = List.replicate (1 + 1) (0 - 1))) := by
  refine ⟨?_, rfl, by decide⟩
  have r0 : Reaches 1 1 initState := Relation.ReflTransGen.refl
  have r1 : Reaches 1 1 ⟨.collector, .free, [], .gotOuter, 0, 0, 0, .idle, none⟩ :=
    r0.tail (.cAcqOuter _ rfl rfl)
  have r2 : Reaches 1 1 ⟨.collector, .collector, [], .gotInner, 0, 0, 0, .idle, none⟩ :=
    r1.tail (.cAcqInner _ rfl rfl)
  have r3 : Reaches 1 1 ⟨.collector, .collector, [], .cleared, 0, 0, 0, .idle, none⟩ :=
    r2.tail (.cClear _ rfl)
  have r4 : Reaches 1 1 ⟨.collector, .free, [], .pushing, 1, 1, 0, .idle, none⟩ :=
    r3.tail (.cRelInner _ rfl)
  have r5 : Reaches 1 1 ⟨.collector, .free, [0], .pushing, 0, 1, 0, .idle, none⟩ :=
    r4.tail (.cPushTop _ rfl rfl (by decide))
  have r6 : Reaches 1 1 ⟨.free, .free, [0], .dead, 0, 1, 0, .idle, none⟩ :=
    r5.tail (.cPanic _ rfl)
  have r7 : Reaches 1 1 ⟨.reader, .free, [0], .dead, 0, 1, 0, .gotOuter, none⟩ :=
    r6.tail (.rAcqOuter _ rfl rfl)
  exact r7.tail (.rAcqInner _ rfl rfl)

/-- C2 amended: whenever the reader holds both store locks, the store
consists of records of one single cycle — never a mixture of records from
two different cycles — and, provided the collector has not panicked
mid-cycle, it is exactly the complete snapshot of the most recently finished
collection cycle (or empty before the first one finishes).  After a
mid-cycle adapter panic the reader can observe the partially rebuilt store
(see the counterexample). -/
theorem c2_amended_reader_snapshot (nT nN : Nat) (s : SysState)
    (h : Reaches nT nN s) (hr : s.rpc = .gotInner) :
    (∃ j k, s.store = List.replicate j k) ∧
    (s.cpc ≠ .dead →
      (s.store = [] ∧ s.completed = 0) ∨
      (1 ≤ s.completed ∧ s.store = List.replicate (nT + nN) (s.completed - 1))) := by
  obtain ⟨i1, i2, _, _, i5, _, _, _, i9⟩ := sysInv_reaches h
  have houter := i2 (by simp [hr])
  have hcpc : s.cpc = .idle ∨ s.cpc = .dead := by
    by_cases hc1 : s.cpc = .idle
    · exact Or.inl hc1
    · by_cases hc2 : s.cpc = .dead
      · exact Or.inr hc2
      · rw [i1 ⟨hc1, hc2⟩] at houter; simp at houter
  constructor
  · rcases hcpc with hc | hc
    · rcases i5 (Or.inl hc) with ⟨he, _⟩ | ⟨_, hrep⟩
      · exact ⟨0, 0, by rw [he]; rfl⟩
      · exact ⟨nT + nN, s.completed - 1, hrep⟩
    · obtain ⟨j, _, hst⟩ := i9 hc
      exact ⟨j, s.completed, hst⟩
  · intro hnd
    rcases hcpc with hc | hc
    · exact i5 (Or.inl hc)
    · exact absurd hc hnd

/-- Witness for C2: after one full panic-free collection cycle (one record
per adapter) and the reader acquiring both locks, the reader sees the
complete two-record snapshot of cycle 0. -/
theorem c2_amended_witness :
    (∃ j k, ([0, 0] : List Nat) = List.replicate j k) ∧
    (CPc.idle ≠ CPc.dead →
      (([0, 0] : List Nat) = [] ∧ (1 : Nat) = 0) ∨
      (1 ≤ (1 : Nat) ∧ ([0, 0] : List Nat) = List.replicate (1 + 1) (1 - 1))) := by
  have r0 : Reaches 1 1 initState := Relation.ReflTransGen.refl
  have r1 : Reaches 1 1 ⟨.collector, .free, [], .gotOuter, 0, 0, 0, .idle, none⟩ :=
    r0.tail (.cAcqOuter _ rfl rfl)
  have r2 : Reaches 1 1 ⟨.collector, .collector, [], .gotInner, 0, 0, 0, .idle, none⟩ :=
    r1.tail (.cAcqInner _ rfl rfl)
  have r3 : Reaches 1 1 ⟨.collector, .collector, [], .cleared, 0, 0, 0, .idle, none⟩ :=
    r2.tail (.cClear _ rfl)
  have r4 : Reaches 1 1 ⟨.collector, .free, [], .pushing, 1, 1, 0, .idle, none⟩ :=
    r3.tail (.cRelInner _ rfl)
  have r5 : Reaches 1 1 ⟨.collector, .free, [0], .pushing, 0, 1, 0, .idle, none⟩ :=
    r4.tail (.cPushTop _ rfl rfl (by decide))
  have r6 : Reaches 1 1 ⟨.collector, .free, [0, 0], .pushing, 0, 0, 0, .idle, none⟩ :=
    r5.tail (.cPushNet _ rfl rfl (by decide))
  have r7 : Reaches 1 1 ⟨.free, .free, [0, 0], .idle, 0, 0, 1, .idle, none⟩ :=
    r6.tail (.cFinish _ rfl rfl rfl)
  have r8 : Reaches 1 1 ⟨.reader, .free, [0, 0], .idle, 0, 0, 1, .gotOuter, none⟩ :=
    r7.tail (.rAcqOuter _ rfl rfl)
  have r9 : Reaches 1 1 ⟨.reader, .reader, [0, 0], .idle, 0, 0, 1, .gotInner, none⟩ :=
    r8.tail (.rAcqInner _ rfl rfl)
  exact c2_amended_reader_snapshot 1 1 _ r9 rfl

/-- C9: rendering the metrics endpoint body over the empty snapshot store
yields the empty string with status 200, and the trailing-character removal
(`String::pop`) is a no-op on the empty accumulator. -/
theorem c9_empty_store_empty_body :
    metricsResponse [] = (200, []) ∧ popChar [] = [] :=
  ⟨rfl, rfl⟩

/-- C10: the CPU-summary and memory-summary parsers return success on every
input line — unparsable previous tokens and unknown tags are skipped, so a
malformed line yields fewer records but never an error result. -/
theorem c10_cpu_mem_parsers_never_fail (line : Str) :
    (∃ recs, handle_cpu_line line = .ok recs) ∧
    (∃ recs, handle_mem_line line = .ok recs) :=
  ⟨⟨_, rfl⟩, ⟨_, rfl⟩⟩

/-! Helper lemmas for the exposition renderer -/

lemma render_foldl (items : List (Str × FVal)) (init : Str) :
    items.foldl (fun acc kv => acc ++ kv.1 ++ " ".data ++ valToStr kv.2 ++ "\n".data) init
      = init ++ (items.map (fun kv => kv.1 ++ " ".data ++ valToStr kv.2 ++ "\n".data)).flatten := by
  induction items generalizing init with
  | nil => simp
  | cons kv rest ih =>
    rw [List.foldl_cons, ih, List.map_cons, List.flatten_cons]
    simp [List.append_assoc]

lemma fmt_foldl (ps : List (Str × Str)) (init : Str) :
    ps.foldl (fun acc kv => acc ++ kv.1 ++ "=\"".data ++ kv.2 ++ "\", ".data) init
      = init ++ (ps.map (fun kv => kv.1 ++ "=\"".data ++ kv.2 ++ "\", ".data)).flatten := by
  induction ps generalizing init with
  | nil => simp
  | cons kv rest ih =>
    rw [List.foldl_cons, ih, List.map_cons, List.flatten_cons]
    simp [List.append_assoc]

lemma join_map_append_sep (sep : Str) (ls : List Str) (h : ls ≠ []) :
    (ls.map (· ++ sep)).flatten = joinSep sep ls ++ sep := by
  induction ls with
  | nil => simp at h
  | cons x rest ih =>
    cases rest with
    | nil => simp [joinSep]
    | cons y t =>
      rw [List.map_cons, List.flatten_cons, ih (by simp)]
      simp [joinSep, List.append_assoc]

lemma popChar_append_singleton (x : Str) (c : Char) : popChar (x ++ [c]) = x := by
  simp [popChar]

lemma popChar2_append_pair (x : Str) (a b : Char) :
    popChar (popChar (x ++ [a, b])) = x := by
  have h : x ++ [a, b] = (x ++ [a]) ++ [b] := by simp
  rw [h, popChar_append_singleton, popChar_append_singleton]

/-- §4.4's label layout, from the spec's words: comma-separated `k="v"`
pairs, nothing for a label-less record. -/
def expLabels : Option (List (Str × Str)) → Str
  | none => []
  | some ps => joinSep ", ".data (ps.map (fun kv => kv.1 ++ "=\"".data ++ kv.2 ++ "\"".data))

/-- §4.4's line layout, from the spec's words:
`name{comma-separated key="value" pairs}<space>value`. -/
def expLine (r : Rec) : Str :=
  r.id ++ "\x7b".data ++ expLabels r.labels ++ "\x7d".data ++ " ".data ++ valToStr r.val

lemma fmtParams_eq_expLabels (l : Option (List (Str × Str))) :
    fmtParams l = expLabels l := by
  match l with
  | none => rfl
  | some [] => rfl
  | some (p :: t) =>
    show popChar (popChar _) = _
    rw [fmt_foldl]
    have hpiece : ((p :: t).map (fun kv => kv.1 ++ "=\"".data ++ kv.2 ++ "\", ".data))
        = ((p :: t).map (fun kv => kv.1 ++ "=\"".data ++ kv.2 ++ "\"".data)).map
            (· ++ ", ".data) := by
      rw [List.map_map]
      refine List.map_congr_left ?_
      intro kv _
      show kv.1 ++ "=\"".data ++ kv.2 ++ "\", ".data = _
      have hdec : ("\", ".data : Str) = "\"".data ++ ", ".data := rfl
      simp [hdec, List.append_assoc]
    rw [hpiece, join_map_append_sep _ _ (by simp)]
    rw [show (", ".data : Str) = [',', ' '] from rfl, List.nil_append,
      popChar2_append_pair]
    rfl

/-- C7: the exposition renderer emits exactly one line per metric record of
the byte shape `name{comma-separated key="value" pairs}<space>value`, with
consecutive records separated by a single newline, empty braces for
label-less records, and no trailing newline after the final record. -/
theorem c7_render_exposition_layout (recs : List Rec) :
    render (recs.map send_influx_value) = joinSep "\n".data (recs.map expLine) := by
  cases recs with
  | nil => rfl
  | cons r t =>
    show popChar _ = _
    rw [render_foldl]
    have hmap : (((r :: t).map send_influx_value).map
          (fun kv => kv.1 ++ " ".data ++ valToStr kv.2 ++ "\n".data))
        = ((r :: t).map expLine).map (· ++ "\n".data) := by
      rw [List.map_map, List.map_map]
      refine List.map_congr_left ?_
      intro r' _
      simp [send_influx_value, expLine, fmtParams_eq_expLabels, List.append_assoc]
    rw [hmap, join_map_append_sep _ _ (by simp)]
    have hn : ("\n".data : Str) = ['\n'] := rfl
    rw [List.nil_append, hn, popChar_append_singleton]

/-- C8: when the external command exits non-zero, both adapters log the
captured stderr text and push no records, so the store is unchanged by that
adapter for the cycle and a read omits that source entirely. -/
theorem c8_nonzero_exit_no_records (stdout stderr : List Nat) (t : Str)
    (h : utf8Decode stderr = some t) :
    exec_top_command (.output false stdout stderr)
        = some ([ "Command error: ".data ++ t ], []) ∧
    exec_netstat_command (.output false stdout stderr)
        = some ([ "Command error: ".data ++ t ], []) := by
  constructor <;> simp [exec_top_command, exec_netstat_command, h]

/-- Witness for C8 at stderr bytes spelling `oops`. -/
theorem c8_witness :
    exec_top_command (.output false [] [111, 111, 112, 115])
        = some ([ "Command error: oops".data ], []) ∧
    exec_netstat_command (.output false [] [111, 111, 112, 115])
        = some ([ "Command error: oops".data ], []) := by
  have h := c8_nonzero_exit_no_records [] [111, 111, 112, 115] "oops".data (by decide)
  exact ⟨by rw [h.1]; rfl, by rw [h.2]; rfl⟩

/-- Counterexample for C3 as stated: a spawn error, or stdout bytes that are
not UTF-8 on a successful run, make the adapters panic (`unwrap`) instead of
logging and continuing. -/
theorem c3_counterexample :
    exec_top_command .spawnErr = none ∧
    exec_netstat_command .spawnErr = none ∧
    exec_top_command (.output true [255] []) = none ∧
    exec_netstat_command (.output true [255] []) = none := by
  refine ⟨rfl, rfl, ?_, ?_⟩ <;> decide

/-- C3 amended: a non-zero exit is handled without panicking for every
stderr byte content (logged and the adapter returns), but a spawn error
panics both adapters through `unwrap`. -/
theorem c3_amended_nonfatal_paths (stdout stderr : List Nat) :
    (exec_top_command (.output false stdout stderr)).isSome ∧
    (exec_netstat_command (.output false stdout stderr)).isSome ∧
    exec_top_command .spawnErr = none ∧
    exec_netstat_command .spawnErr = none := by
  refine ⟨?_, ?_, rfl, rfl⟩ <;>
    · simp only [exec_top_command, exec_netstat_command]
      cases h : utf8Decode stderr <;> simp

/-- Processing a concatenation of line lists concatenates logs and records,
provided neither half panics. -/
lemma runLines_append (ls1 ls2 : List Str) (g1 : List Str) (r1 : List Rec)
    (g2 : List Str) (r2 : List Rec)
    (h1 : runLines ls1 = some (g1, r1)) (h2 : runLines ls2 = some (g2, r2)) :
    runLines (ls1 ++ ls2) = some (g1 ++ g2, r1 ++ r2) := by
  induction ls1 generalizing g1 r1 with
  | nil =>
    simp [runLines] at h1
    obtain ⟨e1, e2⟩ := h1
    subst e1; subst e2
    simpa using h2
  | cons l t ih =>
    cases hl : handle_line l with
    | none => simp [runLines, hl] at h1
    | some r =>
      cases ht : runLines t with
      | none => simp [runLines, hl, ht] at h1
      | some p =>
        obtain ⟨logs, recs⟩ := p
        cases r with
        | ok rl =>
          simp [runLines, hl, ht] at h1
          obtain ⟨hg, hr⟩ := h1
          subst hg; subst hr
          simp [runLines, hl, ih logs recs ht, List.append_assoc]
        | error m =>
          simp [runLines, hl, ht] at h1
          obtain ⟨hg, hr⟩ := h1
          subst hg; subst hr
          simp [runLines, hl, ih logs recs ht]

/-- Counterexample for C4 as stated: the line `" 1"` is classified as a
process-table row (leading space then a digit) but has fewer than nine
columns, so `line_items[1]` panics and the whole adapter cycle aborts. -/
theorem c4_counterexample :
    handle_line " 1".data = none ∧ runLines [" 1".data] = none := by
  constructor <;> decide

/-- C4 amended: a process row whose expected numeric column fails to parse
yields an error for that line only — its log entry is added and all sibling
lines' records are unaffected — but a row with too few columns panics and
aborts the adapter (see the counterexample). -/
theorem c4_amended_parse_error_isolated (ls1 ls2 : List Str) (bad : Str)
    (g1 : List Str) (r1 : List Rec) (g2 : List Str) (r2 : List Rec) (m : Str)
    (h1 : runLines ls1 = some (g1, r1)) (h2 : runLines ls2 = some (g2, r2))
    (hb : handle_line bad = some (.error m)) :
    runLines (ls1 ++ bad :: ls2)
      = some (g1 ++ ("Line subcommand error: ".data ++ m) :: g2, r1 ++ r2) := by
  have hmid : runLines (bad :: ls2)
      = some (("Line subcommand error: ".data ++ m) :: g2, r2) := by
    simp [runLines, hb, h2]
  exact runLines_append ls1 (bad :: ls2) g1 r1 _ r2 h1 hmid

/-- Witness for C4: a row whose CPU column is `xx` produces one error log
and no records, while its (empty-line) siblings are processed normally. -/
theorem c4_witness :
    runLines ([[]] ++ " 1 r 0 0 0 0 0 0 xx 0 c".data :: [[]])
      = some (([] : List Str) ++ ("Line subcommand error: ".data ++
          "Unable to convert process CPU to float: invalid float literal".data)
            :: ([] : List Str),
          ([] : List Rec) ++ ([] : List Rec)) :=
  c4_amended_parse_error_isolated [[]] [[]] " 1 r 0 0 0 0 0 0 xx 0 c".data
    [] [] [] []
    "Unable to convert process CPU to float: invalid float literal".data
    (by decide) (by decide) (by decide)

/-! Helper lemmas: digit runs always parse as floats -/

lemma lowerChar_of_isDigit {c : Char} (h : c.isDigit = true) : lowerChar c = c := by
  simp [Char.isDigit] at h
  have h2 : c.toNat ≤ 57 := h.2
  have hnot : ¬('A' ≤ c ∧ c ≤ 'Z') := by
    rintro ⟨ha, _⟩
    rw [Char.le_def] at ha
    have ha' : 65 ≤ c.toNat := ha
    omega
  simp [lowerChar, hnot]

lemma map_lowerChar_of_digits (s : Str) (hall : ∀ c ∈ s, c.isDigit) :
    s.map lowerChar = s := by
  induction s with
  | nil => rfl
  | cons c t ih =>
    simp [lowerChar_of_isDigit (hall c (by simp)),
      ih (fun x hx => hall x (by simp [hx]))]

lemma takeWhile_eq_self_of_all {p : Char → Bool} {s : Str}
    (h : ∀ c ∈ s, p c = true) : s.takeWhile p = s := by
  induction s with
  | nil => rfl
  | cons c t ih =>
    simp [List.takeWhile_cons, h c (by simp), ih (fun x hx => h x (by simp [hx]))]

lemma dropWhile_eq_nil_of_all {p : Char → Bool} {s : Str}
    (h : ∀ c ∈ s, p c = true) : s.dropWhile p = [] := by
  induction s with
  | nil => rfl
  | cons c t ih =>
    simp [List.dropWhile_cons, h c (by simp), ih (fun x hx => h x (by simp [hx]))]

lemma parseDecMant_digits (s : Str) (hne : s ≠ []) (hall : ∀ c ∈ s, c.isDigit) :
    parseDecMant s = some ((digitsToNat s : ℚ)) := by
  have htake : s.takeWhile Char.isDigit = s := takeWhile_eq_self_of_all hall
  have hdrop : s.dropWhile Char.isDigit = [] := dropWhile_eq_nil_of_all hall
  simp only [parseDecMant, htake, hdrop]
  simp [hne]

lemma parseAbsF64_digits (s : Str) (hne : s ≠ []) (hall : ∀ c ∈ s, c.isDigit) :
    parseAbsF64 s = some (.num ((digitsToNat s : ℚ))) := by
  have hmap : s.map lowerChar = s := map_lowerChar_of_digits s hall
  have hinf : ¬(s = "inf".data ∨ s = "infinity".data) := by
    rintro (h | h) <;> rw [h] at hall
    · exact absurd (hall 'i' (by decide)) (by decide)
    · exact absurd (hall 'i' (by decide)) (by decide)
  have hnan : ¬(s = "nan".data) := by
    intro h; rw [h] at hall
    exact absurd (hall 'n' (by decide)) (by decide)
  simp only [parseAbsF64, hmap, if_neg hinf, if_neg hnan,
    parseDecMant_digits s hne hall]
  rfl

lemma parseF64_digits (s : Str) (hne : s ≠ []) (hall : ∀ c ∈ s, c.isDigit) :
    parseF64 s = some (.num ((digitsToNat s : ℚ))) := by
  rw [parseF64.eq_def]
  split
  · exact absurd (hall '+' (by simp)) (by decide)
  · exact absurd (hall '-' (by simp)) (by decide)
  · exact parseAbsF64_digits s hne hall

/-! Helper lemmas: the pieces produced by `splitSep` -/

lemma splitSep_ne_nil {α : Type} [DecidableEq α] (sep : α) (l : List α) :
    splitSep sep l ≠ [] := by
  induction l with
  | nil => simp [splitSep]
  | cons a t ih =>
    by_cases h : a = sep
    · simp [splitSep, h]
    · simp only [splitSep, if_neg h]
      cases hsp : splitSep sep t with
      | nil => exact absurd hsp ih
      | cons u us => simp

lemma splitSep_chars {α : Type} [DecidableEq α] (sep : α) (l : List α) :
    ∀ t ∈ splitSep sep l, ∀ c ∈ t, c ∈ l ∧ c ≠ sep := by
  induction l with
  | nil =>
    intro t ht c hc
    simp [splitSep] at ht
    subst ht; simp at hc
  | cons a rest ih =>
    intro t ht c hc
    by_cases h : a = sep
    · simp only [splitSep, if_pos h] at ht
      rcases List.mem_cons.mp ht with rfl | ht'
      · simp at hc
      · have := ih t ht' c hc
        exact ⟨by simp [this.1], this.2⟩
    · simp only [splitSep, if_neg h] at ht
      cases hsp : splitSep sep rest with
      | nil => exact absurd hsp (splitSep_ne_nil sep rest)
      | cons u us =>
        rw [hsp] at ht
        rcases List.mem_cons.mp ht with rfl | ht'
        · rcases List.mem_cons.mp hc with rfl | hcu
          · exact ⟨by simp, h⟩
          · have := ih u (by rw [hsp]; simp) c hcu
            exact ⟨by simp [this.1], this.2⟩
        · have := ih t (by rw [hsp]; simp [ht']) c hc
          exact ⟨by simp [this.1], this.2⟩

lemma digitRuns_mem {t nr : Str} (h : nr ∈ digitRuns t) :
    nr ≠ [] ∧ ∀ c ∈ nr, c.isDigit := by
  unfold digitRuns at h
  rw [List.mem_filter] at h
  obtain ⟨hmem, hne⟩ := h
  refine ⟨by simpa using hne, ?_⟩
  intro c hc
  obtain ⟨hcl, hcsep⟩ := splitSep_chars '_' _ nr hmem c hc
  rw [List.mem_map] at hcl
  obtain ⟨c0, _, hfc⟩ := hcl
  by_cases hd : c0.isDigit
  · rw [show (if !c0.isDigit then '_' else c0) = c0 by simp [hd]] at hfc
    rw [← hfc]; exact hd
  · rw [show (if !c0.isDigit then '_' else c0) = '_' by simp [hd]] at hfc
    exact absurd hfc.symm hcsep

lemma netstatLoop_map (header t : Str) (runs : List Str)
    (h : ∀ nr ∈ runs, parseF64 nr = some (.num ((digitsToNat nr : ℚ)))) :
    netstatLoop header t runs
      = (runs.map (fun nr => netstatRec header t nr (.num ((digitsToNat nr : ℚ)))),
         none) := by
  induction runs with
  | nil => rfl
  | cons nr rest ih =>
    simp [netstatLoop, h nr (by simp), ih (fun x hx => h x (by simp [hx]))]

/-- Modelled from the spec: remove the *first* textual occurrence of `pat`
(§4.1's wording for the network-statistics description), for comparison with
the code's remove-all `replaceAll`. -/
def removeFirstOcc (pat : Str) : Str → Str
  | [] => []
  | c :: rest =>
    if pat.isPrefixOf (c :: rest) ∧ pat ≠ [] then List.drop (pat.length - 1) rest
    else c :: removeFirstOcc pat rest

/-- Modelled from the spec: the description C1 predicts — the trimmed line
with the first textual occurrence of the digit run removed, trimmed of
colons and spaces, internal whitespace runs collapsed. -/
def claimDesc (t nr : Str) : Str :=
  let d := trimMatchesBy (fun c => c = ' ' ∨ c = ':') (removeFirstOcc nr t)
  joinSep " ".data ((splitSep ' ' d).filter (· ≠ []))

/-- Counterexample for C1 as stated: on header `Tcp` and data line
`    1 foo 1`, both emitted records carry desc `foo` (the code removes
*every* occurrence of the digit substring), while the claim predicts desc
`foo 1` (first occurrence only); the two differ. -/
theorem c1_counterexample :
    ((handle_netstat_line "Tcp".data "    1 foo 1".data).1.map (fun r => r.labels))
      = [some [("category".data, "Tcp".data), ("desc".data, "foo".data)],
         some [("category".data, "Tcp".data), ("desc".data, "foo".data)]] ∧
    claimDesc (trimStr "    1 foo 1".data) "1".data = "foo 1".data ∧
    ("foo".data : Str) ≠ "foo 1".data := by
  refine ⟨by decide, by decide, by decide⟩

/-- C1 amended: for every category header and data line the network
statistics parser returns no error and emits exactly one `netstat_info`
record per digit run, labeled with the header as `category` and, as `desc`,
the trimmed line with **every** textual occurrence of that digit substring
removed (not just the first), trimmed of colons/spaces and with whitespace
runs collapsed; the concrete `Tcp` / `    1403 active connections openings`
scenario yields the single record with desc
`active connections openings` and value 1403. -/
theorem c1_amended_netstat_records (header line : Str) :
    handle_netstat_line header line
      = ((digitRuns (trimStr line)).map (fun nr =>
          ⟨NETSTAT_INFO_ID,
           some [("category".data, header),
                 ("desc".data, netstatDesc (trimStr line) nr)],
           .num ((digitsToNat nr : ℚ))⟩),
         none) ∧
    handle_netstat_line "Tcp".data "    1403 active connections openings".data
      = ([⟨NETSTAT_INFO_ID,
            some [("category".data, "Tcp".data),
                  ("desc".data, "active connections openings".data)],
            .num 1403⟩], none) := by
  constructor
  · unfold handle_netstat_line
    exact netstatLoop_map header (trimStr line) _
      (fun nr hnr => parseF64_digits nr (digitRuns_mem hnr).1 (digitRuns_mem hnr).2)
  · decide

/-! Helper: the `line_items[line_items.len()-1]` index is the last token -/

lemma get?_last {α : Type} (l : List α) : l.get? (l.length - 1) = l.getLast? := by
  induction l with
  | nil => rfl
  | cons a t ih =>
    cases t with
    | nil => rfl
    | cons b u =>
      have h1 : (a :: b :: u).get? ((a :: b :: u).length - 1)
          = (b :: u).get? ((b :: u).length - 1) := by
        simp
      rw [h1, ih, List.getLast?_cons_cons]

/-- C6: a process-table row with at least nine whitespace-separated columns
whose CPU column (token 8) and memory column (token 5) both parse as
decimals (comma accepted as separator) yields exactly two records —
`proc_cpu` with the token-8 value and `proc_mem` with the token-5 value —
sharing the identical label set `{pid = token 0, user = token 1,
command = last token}`. -/
theorem c6_proc_row_two_records (line : Str) (t0 t1 t2 t3 t4 t5 t6 t7 t8 : Str)
    (rest : List Str) (cmd : Str) (c m : FVal)
    (htoks : procTokens line = t0 :: t1 :: t2 :: t3 :: t4 :: t5 :: t6 :: t7 :: t8 :: rest)
    (hcmd : (t8 :: rest).getLast? = some cmd)
    (hc : parseF64 (replaceAll t8 ",".data ".".data) = some c)
    (hm : parseF64 (replaceAll t5 ",".data ".".data) = some m) :
    handle_proc_line line = some (.ok
      [⟨PROC_CPU_ID,
        some [("pid".data, t0), ("user".data, t1), ("command".data, cmd)], c⟩,
       ⟨PROC_MEM_ID,
        some [("pid".data, t0), ("user".data, t1), ("command".data, cmd)], m⟩]) := by
  have hlast : (t0 :: t1 :: t2 :: t3 :: t4 :: t5 :: t6 :: t7 :: t8 :: rest).get?
      ((t0 :: t1 :: t2 :: t3 :: t4 :: t5 :: t6 :: t7 :: t8 :: rest).length - 1)
      = some cmd := by
    rw [get?_last]
    simpa [List.getLast?_cons_cons] using hcmd
  unfold handle_proc_line
  rw [htoks]
  simp [hlast, hc, hm]
  have hlt : rest.length < (t8 :: rest).length := by simp
  have h2 : (t8 :: rest).get? rest.length = some cmd := by
    have he : rest.length = (t8 :: rest).length - 1 := by simp
    rw [he, get?_last]; exact hcmd
  simp [List.get?_eq_getElem?, List.getElem?_eq_getElem hlt] at h2
  exact h2

/-- Witness for C6 at a realistic `top` row (comma decimal separators). -/
theorem c6_witness :
    handle_proc_line
        " 1234 root      20   0 171404  11808   8456 S   0,0   0,1   0:01.71 systemd".data
      = some (.ok
        [⟨PROC_CPU_ID,
          some [("pid".data, "1234".data), ("user".data, "root".data),
                ("command".data, "systemd".data)], .num 0⟩,
         ⟨PROC_MEM_ID,
          some [("pid".data, "1234".data), ("user".data, "root".data),
                ("command".data, "systemd".data)], .num 11808⟩]) :=
  c6_proc_row_two_records _ "1234".data "root".data "20".data "0".data
    "171404".data "11808".data "8456".data "S".data "0,0".data
    ["0,1".data, "0:01.71".data, "systemd".data] "systemd".data
    (.num 0) (.num 11808) (by decide) (by decide)
    (by with_unfolding_all rfl) (by with_unfolding_all rfl)

/-! Helpers for C5: numeric tokens (digits with at most one decimal point)
parse to their exact decimal value and pass untouched through trimming and
comma replacement -/

/-- A plain decimal token: at least one digit, only digits and at most one
decimal point.  This is the shape of the numeric fields of a CPU summary
line. -/
def isNumTok (s : Str) : Prop :=
  (∃ c ∈ s, c.isDigit) ∧ (∀ c ∈ s, c.isDigit ∨ c = '.') ∧ s.count '.' ≤ 1

instance (s : Str) : Decidable (isNumTok s) := by
  unfold isNumTok; infer_instance

/-- The decimal value of a plain decimal token. -/
def decValue (s : Str) : ℚ :=
  let ds := s.takeWhile Char.isDigit
  match s.dropWhile Char.isDigit with
  | [] => (digitsToNat ds : ℚ)
  | _ :: r2 =>
    let fs := r2.takeWhile Char.isDigit
    (digitsToNat ds : ℚ) + Rat.divInt (digitsToNat fs) ((Nat.pow 10 fs.length : ℕ) : ℤ)

lemma numChar_props {c : Char} (hc : c.isDigit = true ∨ c = '.') :
    c ≠ ' ' ∧ c ≠ ',' ∧ lowerChar c = c ∧ isWhitespaceChar c = false := by
  rcases hc with hd | rfl
  · have hb : 48 ≤ c.toNat ∧ c.toNat ≤ 57 := by
      simp [Char.isDigit] at hd
      exact ⟨hd.1, hd.2⟩
    refine ⟨?_, ?_, lowerChar_of_isDigit hd, ?_⟩
    · intro he; subst he; exact absurd hb (by decide)
    · intro he; subst he; exact absurd hb (by decide)
    · simp only [isWhitespaceChar]
      simp only [decide_eq_false_iff_not]
      omega
  · exact ⟨by decide, by decide, by decide, by decide⟩

lemma map_lowerChar_of_numTok (s : Str) (h : ∀ c ∈ s, c.isDigit ∨ c = '.') :
    s.map lowerChar = s := by
  induction s with
  | nil => rfl
  | cons c t ih =>
    simp [(numChar_props (h c (by simp))).2.2.1,
      ih (fun x hx => h x (by simp [hx]))]

lemma trimMatchesBy_eq_self {p : Char → Bool} {s : Str}
    (h : ∀ c ∈ s, p c = false) : trimMatchesBy p s = s := by
  unfold trimMatchesBy
  have h1 : s.dropWhile p = s := by
    cases s with
    | nil => rfl
    | cons a t => simp [List.dropWhile_cons, h a (by simp)]
  rw [h1]
  have h2 : s.reverse.dropWhile p = s.reverse := by
    cases hs : s.reverse with
    | nil => rfl
    | cons a t =>
      have ha : a ∈ s := by rw [← List.mem_reverse, hs]; simp
      simp [List.dropWhile_cons, h a ha]
  rw [h2, List.reverse_reverse]

lemma replace_single_absent {c : Char} {rep s : Str} (h : ∀ x ∈ s, x ≠ c) :
    replaceStrAux [c] rep s 0 = s := by
  induction s with
  | nil => rfl
  | cons a t ih =>
    have ha : a ≠ c := h a (by simp)
    have hpre : ¬([c].isPrefixOf (a :: t) ∧ ([c] : Str) ≠ []) := by
      simp [List.isPrefixOf]
      intro he; exact absurd he.symm ha
    simp only [replaceStrAux, if_neg hpre]
    rw [ih (fun x hx => h x (by simp [hx]))]

lemma dropWhile_head_not {p : Char → Bool} {l : Str} {c : Char} {r : Str}
    (h : l.dropWhile p = c :: r) : p c = false := by
  induction l with
  | nil => simp at h
  | cons a t ih =>
    rw [List.dropWhile_cons] at h
    by_cases hp : p a = true
    · rw [if_pos hp] at h; exact ih h
    · rw [if_neg hp] at h
      cases h
      simpa using hp

lemma parseDecMant_numTok (s : Str) (h : isNumTok s) :
    parseDecMant s = some (decValue s) := by
  obtain ⟨⟨d, hdmem, hddig⟩, hall, hdots⟩ := h
  have hne : s ≠ [] := by intro he; rw [he] at hdmem; simp at hdmem
  have hsplit_s : s.takeWhile Char.isDigit ++ s.dropWhile Char.isDigit = s :=
    List.takeWhile_append_dropWhile Char.isDigit s
  cases hr : s.dropWhile Char.isDigit with
  | nil =>
    have hds : s.takeWhile Char.isDigit = s := by
      rw [hr] at hsplit_s; simpa using hsplit_s
    have hdsne : ¬(s.takeWhile Char.isDigit = []) := by rw [hds]; exact hne
    simp only [parseDecMant, decValue, hr, if_neg hdsne]
  | cons c r2 =>
    have hcp : Char.isDigit c = false := dropWhile_head_not hr
    have hcmem : c ∈ s := by
      have hsub := List.dropWhile_sublist (p := Char.isDigit) (l := s)
      rw [hr] at hsub
      exact hsub.subset (by simp)
    have hcdot : c = '.' := by
      rcases hall c hcmem with hd2 | h2
      · rw [hd2] at hcp; cases hcp
      · exact h2
    subst hcdot
    have hsplit2 : s.takeWhile Char.isDigit ++ '.' :: r2 = s := by
      rw [← hr]; exact hsplit_s
    have hds_digits : ∀ a ∈ s.takeWhile Char.isDigit, a.isDigit := by
      intro a ha
      exact List.mem_takeWhile_imp ha
    have hdot_notin_take : '.' ∉ s.takeWhile Char.isDigit := by
      intro hm
      exact absurd (hds_digits '.' hm) (by decide)
    have hcount := congrArg (List.count '.') hsplit2
    rw [List.count_append] at hcount
    have hcount_take : (s.takeWhile Char.isDigit).count '.' = 0 :=
      List.count_eq_zero.mpr hdot_notin_take
    have hcount_r2 : r2.count '.' = 0 := by
      have : ('.' :: r2).count '.' = r2.count '.' + 1 := by
        simp [List.count_cons]
      omega
    have hdot_notin_r2 : '.' ∉ r2 := List.count_eq_zero.mp hcount_r2
    have hr2_digits : ∀ a ∈ r2, a.isDigit := by
      intro a ha
      have hamem : a ∈ s := by rw [← hsplit2]; simp [ha]
      rcases hall a hamem with hd2 | h2
      · exact hd2
      · subst h2; exact absurd ha hdot_notin_r2
    have htake2 : r2.takeWhile Char.isDigit = r2 := takeWhile_eq_self_of_all hr2_digits
    have hdrop2 : r2.dropWhile Char.isDigit = [] := dropWhile_eq_nil_of_all hr2_digits
    have hne_cond : ¬(s.takeWhile Char.isDigit = [] ∧ r2 = []) := by
      rintro ⟨h1, h2⟩
      rw [h1, h2] at hsplit2
      rw [← hsplit2] at hdmem
      simp at hdmem
      subst hdmem
      exact absurd hddig (by decide)
    simp only [parseDecMant, decValue, hr, htake2, hdrop2]
    rw [if_pos trivial, if_neg hne_cond]

lemma parseF64_numTok (s : Str) (h : isNumTok s) :
    parseF64 s = some (.num (decValue s)) := by
  have hall := h.2.1
  have hne : s ≠ [] := by
    obtain ⟨d, hdmem, _⟩ := h.1
    intro he; rw [he] at hdmem; simp at hdmem
  have habs : parseAbsF64 s = some (.num (decValue s)) := by
    have hmap : s.map lowerChar = s := map_lowerChar_of_numTok s hall
    have hinf : ¬(s = "inf".data ∨ s = "infinity".data) := by
      rintro (he | he) <;> rw [he] at hall <;>
        exact absurd (hall 'i' (by decide)) (by decide)
    have hnan : ¬(s = "nan".data) := by
      intro he; rw [he] at hall
      exact absurd (hall 'n' (by decide)) (by decide)
    simp only [parseAbsF64, hmap, if_neg hinf, if_neg hnan,
      parseDecMant_numTok s h]
    rfl
  rw [parseF64.eq_def]
  split
  · exact absurd (hall '+' (by simp)) (by decide)
  · exact absurd (hall '-' (by simp)) (by decide)
  · exact habs

/-- `prev.trim().replace(",", ".").parse::<f64>()` succeeds on a plain
decimal token with its exact decimal value. -/
lemma parseNumTok_numTok (s : Str) (h : isNumTok s) :
    parseNumTok (trimStr s) = some (.num (decValue s)) := by
  have hall := h.2.1
  have htrim : trimStr s = s :=
    trimMatchesBy_eq_self (fun c hc => (numChar_props (hall c hc)).2.2.2)
  have hrepl : replaceAll s ",".data ".".data = s := by
    show replaceStrAux ",".data ".".data s 0 = s
    exact replace_single_absent (fun x hx => (numChar_props (hall x hx)).2.1)
  rw [htrim]
  unfold parseNumTok
  rw [hrepl]
  exact parseF64_numTok s h

/-! Splitting lemmas for the constructed CPU-summary line -/

lemma splitSep_append {α : Type} [DecidableEq α] (sep : α) (xs ys : List α) :
    splitSep sep (xs ++ sep :: ys) = splitSep sep xs ++ splitSep sep ys := by
  induction xs with
  | nil => simp [splitSep]
  | cons a t ih =>
    by_cases h : a = sep
    · simp [splitSep, h, ih]
    · rw [List.cons_append]
      simp only [splitSep, if_neg h, ih]
      cases hsp : splitSep sep t with
      | nil => exact absurd hsp (splitSep_ne_nil sep t)
      | cons u us => simp

lemma splitSep_single {α : Type} [DecidableEq α] (sep : α) (xs : List α)
    (h : ∀ c ∈ xs, c ≠ sep) : splitSep sep xs = [xs] := by
  induction xs with
  | nil => rfl
  | cons a t ih =>
    simp only [splitSep, if_neg (h a (by simp)),
      ih (fun c hc => h c (by simp [hc]))]

lemma splitSep_token_sep {α : Type} [DecidableEq α] (sep : α) (tok rest : List α)
    (h : ∀ c ∈ tok, c ≠ sep) :
    splitSep sep (tok ++ sep :: rest) = tok :: splitSep sep rest := by
  rw [splitSep_append, splitSep_single sep tok h]
  rfl

/-- C5: every valid CPU-summary line of the form `X us, Y sy, Z ni, W id`
(the four fields plain decimal tokens) yields exactly four label-less
records with values X (`cpu_user`), Y (`cpu_system`), Z (`cpu_nice`) and
W (`cpu_idle`); tokens with unknown unit tags are skipped rather than
emitted.  In particular the line
`%Cpu(s):  3.2 us,  1.1 sy,  0.0 ni, 95.7 id` yields `(cpu_user, 3.2)`,
`(cpu_system, 1.1)`, `(cpu_nice, 0.0)`, `(cpu_idle, 95.7)`. -/
theorem c5_cpu_line_four_records (x y z w : Str)
    (hx : isNumTok x) (hy : isNumTok y) (hz : isNumTok z) (hw : isNumTok w) :
    handle_cpu_line (x ++ " us, ".data ++ y ++ " sy, ".data ++ z ++ " ni, ".data
        ++ w ++ " id".data)
      = .ok [⟨CPU_USER_ID, none, .num (decValue x)⟩,
             ⟨CPU_SYSTEM_ID, none, .num (decValue y)⟩,
             ⟨CPU_NICE_ID, none, .num (decValue z)⟩,
             ⟨CPU_IDLE_ID, none, .num (decValue w)⟩] ∧
    handle_cpu_line "%Cpu(s):  3.2 us,  1.1 sy,  0.0 ni, 95.7 id".data
      = .ok [⟨CPU_USER_ID, none, .num (3.2 : ℚ)⟩,
             ⟨CPU_SYSTEM_ID, none, .num (1.1 : ℚ)⟩,
             ⟨CPU_NICE_ID, none, .num (0 : ℚ)⟩,
             ⟨CPU_IDLE_ID, none, .num (95.7 : ℚ)⟩] := by
  constructor
  · have hxs : ∀ c ∈ x, c ≠ ' ' := fun c hc => (numChar_props (hx.2.1 c hc)).1
    have hys : ∀ c ∈ y, c ≠ ' ' := fun c hc => (numChar_props (hy.2.1 c hc)).1
    have hzs : ∀ c ∈ z, c ≠ ' ' := fun c hc => (numChar_props (hz.2.1 c hc)).1
    have hws : ∀ c ∈ w, c ≠ ' ' := fun c hc => (numChar_props (hw.2.1 c hc)).1
    have hline : x ++ " us, ".data ++ y ++ " sy, ".data ++ z ++ " ni, ".data
        ++ w ++ " id".data
        = x ++ ' ' :: ("us,".data ++ ' ' :: (y ++ ' ' :: ("sy,".data
          ++ ' ' :: (z ++ ' ' :: ("ni,".data ++ ' ' :: (w ++ ' ' :: "id".data)))))) := by
      have eA : (" us, ".data : Str) = ' ' :: ("us,".data ++ [' ']) := rfl
      have eB : (" sy, ".data : Str) = ' ' :: ("sy,".data ++ [' ']) := rfl
      have eC : (" ni, ".data : Str) = ' ' :: ("ni,".data ++ [' ']) := rfl
      have eD : (" id".data : Str) = ' ' :: "id".data := rfl
      simp [eA, eB, eC, eD, List.append_assoc]
    have hsplit : splitSep ' ' (x ++ " us, ".data ++ y ++ " sy, ".data ++ z
        ++ " ni, ".data ++ w ++ " id".data)
        = [x, "us,".data, y, "sy,".data, z, "ni,".data, w, "id".data] := by
      rw [hline,
        splitSep_token_sep ' ' x _ hxs,
        splitSep_token_sep ' ' ("us,".data) _ (by decide),
        splitSep_token_sep ' ' y _ hys,
        splitSep_token_sep ' ' ("sy,".data) _ (by decide),
        splitSep_token_sep ' ' z _ hzs,
        splitSep_token_sep ' ' ("ni,".data) _ (by decide),
        splitSep_token_sep ' ' w _ hws,
        splitSep_single ' ' ("id".data) (by decide)]
    unfold handle_cpu_line
    rw [hsplit]
    have hpx := parseNumTok_numTok x hx
    have hpy := parseNumTok_numTok y hy
    have hpz := parseNumTok_numTok z hz
    have hpw := parseNumTok_numTok w hw
    have hp0 : parseNumTok (trimStr ([] : Str)) = none := by decide
    have hp1 : parseNumTok (trimStr "us,".data) = none := by decide
    have hp2 : parseNumTok (trimStr "sy,".data) = none := by decide
    have hp3 : parseNumTok (trimStr "ni,".data) = none := by decide
    have ht1 : cpuTag "us,".data = some CPU_USER_ID := by decide
    have ht2 : cpuTag "sy,".data = some CPU_SYSTEM_ID := by decide
    have ht3 : cpuTag "ni,".data = some CPU_NICE_ID := by decide
    have ht4 : cpuTag "id".data = some CPU_IDLE_ID := by decide
    simp [slideLoop, hp0, hp1, hp2, hp3, hpx, hpy, hpz, hpw, ht1, ht2, ht3, ht4]
  · with_unfolding_all rfl

/-- Witness for C5: the theorem applied at the concrete tokens of the
scenario line. -/
theorem c5_witness :
    handle_cpu_line "%Cpu(s):  3.2 us,  1.1 sy,  0.0 ni, 95.7 id".data
      = .ok [⟨CPU_USER_ID, none, .num (3.2 : ℚ)⟩,
             ⟨CPU_SYSTEM_ID, none, .num (1.1 : ℚ)⟩,
             ⟨CPU_NICE_ID, none, .num (0 : ℚ)⟩,
             ⟨CPU_IDLE_ID, none, .num (95.7 : ℚ)⟩] :=
  (c5_cpu_line_four_records "3.2".data "1.1".data "0.0".data "95.7".data
    (by decide) (by decide) (by decide) (by decide)).2

end NodeScraper
